import Mathlib

/-!
Verification of the versioned-memory lifecycle subsystem of TwinSelf:
a shallow embedding of `src/twinself/core/incremental_builder.py` and
`src/twinself/core/version_manager.py`, together with proofs of the
spec's testable properties about them.

Modelling conventions:
* A Python `dict` is modelled by an association list (`List (key × value)`)
  whose lookup is `List.lookup`; real dicts never hold duplicate keys, so a
  `Nodup` hypothesis on the key list is added where a proof needs it.
* A directory scan (`os.walk` + per-file SHA-256) is modelled by the map
  `path → hash` it produces; an absent directory is `none` (walking an
  absent directory yields nothing).
* A SHA-256 digest of a byte stream is modelled by the stream itself
  (collision-free idealisation): two digests are equal exactly when the
  hashed inputs are equal.
* Python string comparison (used by `sorted` / `list.sort`) is code-point
  lexicographic; `strLe` below implements exactly that order, and Python's
  stable `sorted` is modelled by `List.insertionSort` over it.
-/

namespace TwinSelf

/-! ## Code-point lexicographic string order (Python's `<=` on `str`) -/

def strListLe : List Char → List Char → Bool
  | [], _ => true
  | _ :: _, [] => false
  | a :: as, b :: bs => if a = b then strListLe as bs else decide (a < b)

def strLe (a b : String) : Bool := strListLe a.data b.data

theorem strListLe_total (a b : List Char) : strListLe a b = true ∨ strListLe b a = true := by
  induction a generalizing b with
  | nil => left; rfl
  | cons x xs ih =>
    cases b with
    | nil => right; rfl
    | cons y ys =>
      by_cases hxy : x = y
      · subst hxy
        rcases ih ys with h | h
        · left; simp [strListLe, h]
        · right; simp [strListLe, h]
      · rcases lt_or_gt_of_ne hxy with h | h
        · left; simp [strListLe, hxy, h]
        · right
          have hyx : y ≠ x := fun e => hxy e.symm
          simp [strListLe, hyx, h]

theorem strListLe_refl (a : List Char) : strListLe a a = true := by
  induction a with
  | nil => rfl
  | cons x xs ih => simp [strListLe, ih]

theorem strListLe_antisymm {a b : List Char}
    (hab : strListLe a b = true) (hba : strListLe b a = true) : a = b := by
  induction a generalizing b with
  | nil =>
    cases b with
    | nil => rfl
    | cons y ys => simp [strListLe] at hba
  | cons x xs ih =>
    cases b with
    | nil => simp [strListLe] at hab
    | cons y ys =>
      by_cases hxy : x = y
      · subst hxy
        simp only [strListLe, if_pos rfl] at hab hba
        exact congrArg (x :: ·) (ih hab hba)
      · have hyx : y ≠ x := fun e => hxy e.symm
        simp only [strListLe, if_neg hxy, decide_eq_true_eq] at hab
        simp only [strListLe, if_neg hyx, decide_eq_true_eq] at hba
        exact absurd hba (not_lt_of_gt hab)

theorem strListLe_trans {a b c : List Char}
    (hab : strListLe a b = true) (hbc : strListLe b c = true) : strListLe a c = true := by
  induction a generalizing b c with
  | nil => rfl
  | cons x xs ih =>
    cases b with
    | nil => simp [strListLe] at hab
    | cons y ys =>
      cases c with
      | nil => simp [strListLe] at hbc
      | cons z zs =>
        by_cases hxy : x = y
        · subst hxy
          simp only [strListLe, if_pos rfl] at hab
          by_cases hyz : x = z
          · subst hyz
            simp only [strListLe, if_pos rfl] at hbc ⊢
            exact ih hab hbc
          · simp only [strListLe, if_neg hyz, decide_eq_true_eq] at hbc ⊢
            exact hbc
        · simp only [strListLe, if_neg hxy, decide_eq_true_eq] at hab
          by_cases hyz : y = z
          · have hxz : x ≠ z := hyz ▸ hxy
            have hlt : x < z := hyz ▸ hab
            simp only [strListLe, if_neg hxz, decide_eq_true_eq]
            exact hlt
          · simp only [strListLe, if_neg hyz, decide_eq_true_eq] at hbc
            have hxz : x ≠ z := ne_of_lt (lt_trans hab hbc)
            simp only [strListLe, if_neg hxz, decide_eq_true_eq]
            exact lt_trans hab hbc

theorem strLe_total (a b : String) : strLe a b = true ∨ strLe b a = true :=
  strListLe_total a.data b.data

theorem strLe_antisymm {a b : String} (hab : strLe a b = true) (hba : strLe b a = true) :
    a = b :=
  String.ext (strListLe_antisymm hab hba)

theorem strLe_trans {a b c : String} (hab : strLe a b = true) (hbc : strLe b c = true) :
    strLe a c = true :=
  strListLe_trans hab hbc

def strLeR (a b : String) : Prop := strLe a b = true

def strGeR (a b : String) : Prop := strLe b a = true

instance : DecidableRel strLeR := fun _ _ => inferInstanceAs (Decidable (_ = true))

instance : DecidableRel strGeR := fun _ _ => inferInstanceAs (Decidable (_ = true))

instance : IsTotal String strLeR := ⟨strLe_total⟩

instance : IsTrans String strLeR := ⟨fun _ _ _ => strLe_trans⟩

instance : IsAntisymm String strLeR := ⟨fun _ _ => strLe_antisymm⟩

instance : IsTotal String strGeR := ⟨fun a b => (strLe_total b a)⟩

instance : IsTrans String strGeR := ⟨fun _ _ _ h1 h2 => strLe_trans h2 h1⟩

instance : IsAntisymm String strGeR := ⟨fun _ _ h1 h2 => strLe_antisymm h2 h1⟩

/-! ## IncrementalBuilder (`src/twinself/core/incremental_builder.py`)

`FileMap` is the `current_files` / cache-entry dict `file path → hex digest`;
`Cache` is `self.cache`, the dict `data_type → FileMap`.  `update_cache`
returns the new cache content, which is also exactly what `_save_cache`
persists (the whole structure is re-serialised on every update). -/

def FileMap : Type := List (String × String)

def Cache : Type := List (String × FileMap)

instance : DecidableEq FileMap := inferInstanceAs (DecidableEq (List (String × String)))

instance : DecidableEq Cache := inferInstanceAs (DecidableEq (List (String × FileMap)))

/-- Key set of a dict modelled as an association list. -/
def fmKeys (m : FileMap) : Finset String := (m.map Prod.fst).toFinset

/-- Dict lookup (`m[k]` / `m.get(k)`). -/
def fmGet (m : FileMap) (k : String) : Option String := m.lookup k

/-- The dict read `self.cache.get(data_type, \x7b\x7d)`. -/
def cacheGet (cache : Cache) (data_type : String) : FileMap :=
  (cache.lookup data_type).getD []

/-- The dict write `self.cache[data_type] = current_files`. -/
def cacheSet (cache : Cache) (data_type : String) (m : FileMap) : Cache :=
  (data_type, m) :: cache.filter (fun p => p.1 ≠ data_type)

/-- The `(added_files, modified_files, deleted_files)` triple of path sets. -/
structure ChangeSet where
  added : Finset String
  modified : Finset String
  deleted : Finset String
deriving DecidableEq

/-- `IncrementalBuilder.detect_changes(directory, data_type)`.  The directory
scan (`os.walk` with the `.txt`/`.md`/`.json` filter plus `_compute_file_hash`)
is represented by its result: `directory = none` when
`os.path.exists(directory)` is false, otherwise `some current_files`. -/
def detect_changes (directory : Option FileMap) (cache : Cache) (data_type : String) :
    ChangeSet :=
  match directory with
  | none => ⟨∅, ∅, ∅⟩
  | some current_files =>
    let cached_files := cacheGet cache data_type
    { added := fmKeys current_files \ fmKeys cached_files
      deleted := fmKeys cached_files \ fmKeys current_files
      modified := (fmKeys current_files ∩ fmKeys cached_files).filter
        (fun f => fmGet current_files f ≠ fmGet cached_files f) }

/-- `IncrementalBuilder.update_cache(directory, data_type)`: recompute the
current scan (an absent directory scans to the empty dict, since `os.walk`
yields nothing for it) and overwrite the cache entry; the returned cache is
what `_save_cache` writes to disk. -/
def update_cache (directory : Option FileMap) (cache : Cache) (data_type : String) : Cache :=
  cacheSet cache data_type (directory.getD [])

/-- `IncrementalBuilder.needs_rebuild(directory, data_type)`. -/
def needs_rebuild (directory : Option FileMap) (cache : Cache) (data_type : String) : Bool :=
  let c := detect_changes directory cache data_type
  c.added ≠ ∅ ∨ c.modified ≠ ∅ ∨ c.deleted ≠ ∅

/-- The summary dict returned by `IncrementalBuilder.get_change_summary`. -/
structure ChangeSummary where
  added : Nat
  modified : Nat
  deleted : Nat
  total_changes : Nat
deriving DecidableEq

/-- `IncrementalBuilder.get_change_summary(directory, data_type)`. -/
def get_change_summary (directory : Option FileMap) (cache : Cache) (data_type : String) :
    ChangeSummary :=
  let c := detect_changes directory cache data_type
  { added := c.added.card
    modified := c.modified.card
    deleted := c.deleted.card
    total_changes := c.added.card + c.modified.card + c.deleted.card }

/-! ## ContentFingerprinter (`_compute_directory_hash`)

A traversal by `os.walk` is a list of `(root, files)` pairs in visit order;
`os.walk` sorts neither the roots nor the files (the code sorts only the
`files` list of each visited directory).  Per the hashing convention above,
the digest is modelled as the sequence of per-file digests fed to the
SHA-256 hasher; `file_hash` maps a file path to its content digest
(`_compute_file_hash`). -/

/-- The `file.endswith(('.txt', '.md', '.json'))` filter. -/
def hasAllowedExt (file : String) : Bool :=
  ".txt".data.isSuffixOf file.data || ".md".data.isSuffixOf file.data ||
    ".json".data.isSuffixOf file.data

/-- `os.path.join(root, file)`. -/
def joinPath (root file : String) : String := root ++ "/" ++ file

/-- `IncrementalBuilder._compute_directory_hash(directory)`: for each visited
directory, take `sorted(files)`, keep the allowed extensions, and feed each
file's content digest to the hasher in that order. -/
def compute_directory_hash (walk : List (String × List String))
    (file_hash : String → String) : List String :=
  walk.flatMap (fun rf =>
    ((List.insertionSort strLeR rf.2).filter hasAllowedExt).map
      (fun f => file_hash (joinPath rf.1 f)))

/-! ## VersionManager (`src/twinself/core/version_manager.py`)

The registry is `self.versions : List MemoryVersion`; `_save_registry`
rewrites the whole JSON file from it.  `metadata` (a free-form dict) is
modelled as a string-to-string association list — its contents are never
inspected by the code under verification. -/

/-- The `MemoryVersion` dataclass. -/
structure MemoryVersion where
  version_id : String
  timestamp : String
  collections : List (String × Nat)
  data_hash : List (String × String)
  metadata : List (String × String)
  is_active : Bool := false
  system_prompt_file : Option String := none
deriving DecidableEq

/-- The `for v in self.versions: v.is_active = False` loop. -/
def deactivate_all (versions : List MemoryVersion) : List MemoryVersion :=
  versions.map (fun v => { v with is_active := false })

/-- Setting `is_active = True` on the first list element whose `version_id`
matches (Python binds `target_version` to the first match and mutates it). -/
def activate_first : List MemoryVersion → String → List MemoryVersion
  | [], _ => []
  | v :: rest, version_id =>
    if v.version_id = version_id then { v with is_active := true } :: rest
    else v :: activate_first rest version_id

/-- The id `f"v\x7blen(self.versions) + 1\x7d_\x7btimestamp\x7d"` built by
`create_version`; `now` stands for the `datetime.now()` instant. -/
def genVersionId (versions : List MemoryVersion) (now : String) : String :=
  "v" ++ toString (versions.length + 1) ++ "_" ++ now

/-- `VersionManager.create_version(collections, data_hash, metadata)`.
The in-memory list is mutated (all existing versions deactivated, the new
active record appended) and only then `_save_registry` runs; `save_ok`
abstracts whether that write succeeds.  The result pairs the in-memory
registry after the call with either the returned id or the propagated
persistence exception. -/
def create_version (versions : List MemoryVersion) (collections : List (String × Nat))
    (data_hash : List (String × String)) (metadata : List (String × String))
    (now : String) (save_ok : Bool) : List MemoryVersion × Except String String :=
  let version_id := genVersionId versions now
  let version : MemoryVersion :=
    { version_id := version_id
      timestamp := now
      collections := collections
      data_hash := data_hash
      metadata := metadata
      is_active := true }
  (deactivate_all versions ++ [version],
    if save_ok then Except.ok version_id else Except.error "PersistenceError")

/-- `VersionManager.get_active_version()`: scan from the end, first
`is_active` hit wins. -/
def get_active_version (versions : List MemoryVersion) : Option MemoryVersion :=
  versions.reverse.find? (fun v => v.is_active)

/-- `VersionManager.restore_snapshot(version_id)` outcome: `false` when no
snapshot directory named `version_id` exists; otherwise the copy steps run
and `copy_ok` abstracts their success (any exception is caught and turned
into `false`).  `snapshots` is the set of snapshot directory names on disk. -/
def restore_snapshot (snapshots : List String) (copy_ok : Bool) (version_id : String) : Bool :=
  if version_id ∈ snapshots then copy_ok else false

/-- `VersionManager.rollback_to_version(version_id, restore_data)` (the later
of the two definitions in the file, which shadows the two-argument one).
Returns the in-memory registry and the returned bool.  When `restore_data`
is set, `restore_snapshot`'s result is computed but only printed — the
pointer flip and the `True` return happen regardless. -/
def rollback_to_version (versions : List MemoryVersion) (snapshots : List String)
    (copy_ok : Bool) (version_id : String) (restore_data : Bool) :
    List MemoryVersion × Bool :=
  match versions.find? (fun v => v.version_id == version_id) with
  | none => (versions, false)
  | some _ =>
    let _data_restored :=
      if restore_data then restore_snapshot snapshots copy_ok version_id else true
    (activate_first (deactivate_all versions) version_id, true)

/-- One entry of the `collection_changes` dict of `get_version_diff`. -/
structure CollChange where
  before : Nat
  after : Nat
  delta : Int
deriving DecidableEq

/-- One entry of the `data_hash_changes` dict of `get_version_diff`. -/
structure HashChange where
  changed : Bool
  before : String
  after : String
deriving DecidableEq

/-- The `collection_changes` dict, as its lookup function: an entry exists
exactly when the name is in the key union and the counts (defaulted to `0`)
differ. -/
def collDiff (v1 v2 : MemoryVersion) (name : String) : Option CollChange :=
  let count1 := ((v1.collections.lookup name).getD 0)
  let count2 := ((v2.collections.lookup name).getD 0)
  if (v1.collections.map Prod.fst ++ v2.collections.map Prod.fst).contains name
      && count1 != count2 then
    some { before := count1, after := count2, delta := (count2 : Int) - (count1 : Int) }
  else none

/-- The `data_hash_changes` dict, as its lookup function: an entry exists
exactly when the name is in the key union and the hashes (defaulted to `""`)
differ; the stored hashes are truncated to 8 characters. -/
def hashDiff (v1 v2 : MemoryVersion) (name : String) : Option HashChange :=
  let hash1 := ((v1.data_hash.lookup name).getD "")
  let hash2 := ((v2.data_hash.lookup name).getD "")
  if (v1.data_hash.map Prod.fst ++ v2.data_hash.map Prod.fst).contains name
      && hash1 != hash2 then
    some { changed := true, before := hash1.take 8, after := hash2.take 8 }
  else none

/-- The diff dict returned by `get_version_diff`, with its two sub-dicts
modelled by their lookup functions. -/
structure VersionDiff where
  collection_changes : String → Option CollChange
  data_hash_changes : String → Option HashChange

/-- `VersionManager.get_version_diff(version_id1, version_id2)`: `next` over
the registry for each id; the empty-dict sentinel for an unknown id is
`none`. -/
def get_version_diff (versions : List MemoryVersion) (version_id1 version_id2 : String) :
    Option VersionDiff :=
  match versions.find? (fun v => v.version_id == version_id1),
      versions.find? (fun v => v.version_id == version_id2) with
  | some v1, some v2 =>
    some { collection_changes := collDiff v1 v2, data_hash_changes := hashDiff v1 v2 }
  | _, _ => none

/-! ### Snapshot store -/

/-- State of a snapshot directory on disk: fully copied, or left behind by a
`copytree` that raised partway. -/
inductive SnapState where
  | complete : SnapState
  | truncated : SnapState
deriving DecidableEq

/-- Outcome of the `shutil.copytree` call inside `create_snapshot`: it
succeeds, or raises after having created part of the destination directory,
or raises before creating anything. -/
inductive CopyOutcome where
  | ok : CopyOutcome
  | failLeavingDir : CopyOutcome
  | failNoDir : CopyOutcome
deriving DecidableEq

/-- `VersionManager.create_snapshot(version_id)`.  `disk` maps snapshot
directory names to their state; `qdrant_exists` is the
`qdrant_path.exists()` check.  A pre-existing snapshot of the same id is
removed (`shutil.rmtree`) before the copy; the `except` handler only prints
and returns `False`, performing no cleanup. -/
def create_snapshot (disk : List (String × SnapState)) (qdrant_exists : Bool)
    (version_id : String) (copy : CopyOutcome) : List (String × SnapState) × Bool :=
  if !qdrant_exists then (disk, false)
  else
    let disk1 := disk.filter (fun p => p.1 ≠ version_id)
    match copy with
    | .ok => ((version_id, .complete) :: disk1, true)
    | .failLeavingDir => ((version_id, .truncated) :: disk1, false)
    | .failNoDir => (disk1, false)

/-- `VersionManager.delete_snapshot(version_id)` over the list of snapshot
directory names (`rmtree` failures aside, which the caller's count skips). -/
def delete_snapshot (disk : List String) (version_id : String) : List String × Bool :=
  if version_id ∈ disk then (disk.erase version_id, true) else (disk, false)

/-- One iteration of the deletion loop of `cleanup_old_snapshots`: delete
the snapshot and bump the counter when the deletion succeeded. -/
def cleanupStep (st : List String × Nat) (s : String) : List String × Nat :=
  let r := delete_snapshot st.1 s
  (r.1, st.2 + (if r.2 then 1 else 0))

/-- `VersionManager.cleanup_old_snapshots(keep_last)`: `list_snapshots()` is
the directory listing `disk`; sort descending (`sort(reverse=True)`), delete
everything past the first `keep_last`, count the successful deletions.
Returns the disk state and the count. -/
def cleanup_old_snapshots (disk : List String) (keep_last : Nat) : List String × Nat :=
  if disk.length ≤ keep_last then (disk, 0)
  else
    let sorted := List.insertionSort strGeR disk
    (sorted.drop keep_last).foldl cleanupStep (disk, 0)

/-! ### Registry operation sequences (for the single-active invariant) -/

/-- One registry-mutating call: `create_version` or `rollback_to_version`
(with whatever snapshot state and restore flag the call sees). -/
inductive RegistryOp where
  | create (collections : List (String × Nat)) (data_hash : List (String × String))
      (metadata : List (String × String)) (now : String) : RegistryOp
  | rollback (snapshots : List String) (copy_ok : Bool) (version_id : String)
      (restore_data : Bool) : RegistryOp

/-- Effect of one call on the in-memory registry (`create_version` with the
registry write succeeding, as any failure raises and ends the sequence). -/
def applyOp (versions : List MemoryVersion) : RegistryOp → List MemoryVersion
  | .create collections data_hash metadata now =>
    (create_version versions collections data_hash metadata now true).1
  | .rollback snapshots copy_ok version_id restore_data =>
    (rollback_to_version versions snapshots copy_ok version_id restore_data).1

/-- Registry produced by a call sequence starting from the empty registry. -/
def runOps (ops : List RegistryOp) : List MemoryVersion :=
  ops.foldl applyOp []

/-! ## Helper lemmas -/

theorem cacheGet_cacheSet (cache : Cache) (data_type : String) (m : FileMap) :
    cacheGet (cacheSet cache data_type m) data_type = m := by
  simp [cacheGet, cacheSet, List.lookup_cons]

theorem cacheSet_cacheSet (cache : Cache) (data_type : String) (m : FileMap) :
    cacheSet (cacheSet cache data_type m) data_type m = cacheSet cache data_type m := by
  unfold cacheSet
  rw [List.filter_cons]
  have hall : ∀ p ∈ cache.filter (fun p : String × FileMap => decide (p.1 ≠ data_type)),
      decide (p.1 ≠ data_type) = true :=
    fun p hp => (List.mem_filter.mp hp).2
  simp [List.filter_eq_self.mpr hall]

/-! ## Claims about change detection and the cache -/

/-- C3: `detect_changes` classifies each path by set algebra against the
cached entry — present now but not cached means added, cached but not
present means deleted, present in both with differing hash means modified
(equal hashes are ignored) — and `get_change_summary` adds the three
cardinalities; on the spec's concrete instance (cache a↦h1, b↦h2; now
a↦h1', c↦h3) the result is added = c, modified = a, deleted = b with
total_changes = 3. -/
theorem detect_changes_set_algebra (current_files : FileMap) (cache : Cache)
    (data_type : String) :
    (∀ p, p ∈ (detect_changes (some current_files) cache data_type).added ↔
        p ∈ fmKeys current_files ∧ p ∉ fmKeys (cacheGet cache data_type))
  ∧ (∀ p, p ∈ (detect_changes (some current_files) cache data_type).deleted ↔
        p ∈ fmKeys (cacheGet cache data_type) ∧ p ∉ fmKeys current_files)
  ∧ (∀ p, p ∈ (detect_changes (some current_files) cache data_type).modified ↔
        (p ∈ fmKeys current_files ∧ p ∈ fmKeys (cacheGet cache data_type))
        ∧ fmGet current_files p ≠ fmGet (cacheGet cache data_type) p)
  ∧ (get_change_summary (some current_files) cache data_type).total_changes =
        (detect_changes (some current_files) cache data_type).added.card
      + (detect_changes (some current_files) cache data_type).modified.card
      + (detect_changes (some current_files) cache data_type).deleted.card
  ∧ (detect_changes (some [("a", "h1p"), ("c", "h3")])
        [("sem", [("a", "h1"), ("b", "h2")])] "sem"
        = ⟨{"c"}, {"a"}, {"b"}⟩
      ∧ (get_change_summary (some [("a", "h1p"), ("c", "h3")])
          [("sem", [("a", "h1"), ("b", "h2")])] "sem").total_changes = 3) := by
  refine ⟨?_, ?_, ?_, rfl, by decide⟩
  · intro p; simp [detect_changes]
  · intro p; simp [detect_changes]
  · intro p; simp [detect_changes, and_assoc]

/-- C9: with no filesystem change in between, a second `update_cache` leaves
the cache content (and hence the persisted file) exactly as the first one
did, and `detect_changes` right after an `update_cache` reports no added,
modified or deleted files. -/
theorem update_cache_idempotent (directory : Option FileMap) (cache : Cache)
    (data_type : String) :
    update_cache directory (update_cache directory cache data_type) data_type
      = update_cache directory cache data_type
  ∧ detect_changes directory (update_cache directory cache data_type) data_type
      = ⟨∅, ∅, ∅⟩ := by
  constructor
  · exact cacheSet_cacheSet cache data_type (directory.getD [])
  · cases directory with
    | none => rfl
    | some current_files =>
      simp only [detect_changes, update_cache, cacheGet_cacheSet, Option.getD_some]
      have hmod : ((fmKeys current_files ∩ fmKeys current_files).filter
          (fun f => fmGet current_files f ≠ fmGet current_files f)) = ∅ := by
        simp
      rw [hmod]
      simp

/-- C10: for an absent source directory, `update_cache` replaces the
category's cache entry with the empty mapping (erasing every previously
cached hash, whatever the prior entry was), while `detect_changes` for the
same absent directory reports the empty change set — so the disappearance
of the directory is never reported as deletions. -/
theorem update_cache_absent_directory (cache : Cache) (data_type : String) :
    cacheGet (update_cache none cache data_type) data_type = []
  ∧ detect_changes none cache data_type = ⟨∅, ∅, ∅⟩ :=
  ⟨cacheGet_cacheSet cache data_type [], rfl⟩

/-! ## Claims about directory hashing -/

/-- A content-hash assignment for the directory-hash counterexample. -/
def cxFileHash (p : String) : String := if p = "./a/f.txt" then "h1" else "h2"

/-- C4 counterexample: two `os.walk` traversals of the same directory set —
the two sibling subdirectories visited in the two possible orders, i.e. a
permutation of one another — produce different directory digests, because
the code sorts only the files within each visited directory and not the
subdirectory traversal order.  So the digest is not independent of the
filesystem's iteration order over subdirectories. -/
theorem directory_hash_walk_order_dependent :
    ([("./a", ["f.txt"]), ("./b", ["g.txt"])] :
        List (String × List String)).Perm [("./b", ["g.txt"]), ("./a", ["f.txt"])]
  ∧ compute_directory_hash [("./a", ["f.txt"]), ("./b", ["g.txt"])] cxFileHash
      ≠ compute_directory_hash [("./b", ["g.txt"]), ("./a", ["f.txt"])] cxFileHash := by
  constructor
  · exact List.Perm.swap _ _ _
  · decide

/-- C4 amended: within each directory visited by the walk the matching files
are enumerated in sorted order, so for a directory with no subdirectories
(a single-entry walk) the digest does not depend on the filesystem's file
iteration order: any permutation of the file listing yields the same
digest. -/
theorem directory_hash_flat_deterministic (root : String) (files1 files2 : List String)
    (file_hash : String → String) (h : files1.Perm files2) :
    compute_directory_hash [(root, files1)] file_hash
      = compute_directory_hash [(root, files2)] file_hash := by
  have hsorted : List.insertionSort strLeR files1 = List.insertionSort strLeR files2 := by
    have hperm : (List.insertionSort strLeR files1).Perm (List.insertionSort strLeR files2) :=
      ((List.perm_insertionSort strLeR files1).trans h).trans
        (List.perm_insertionSort strLeR files2).symm
    have s1 : List.Sorted strLeR (List.insertionSort strLeR files1) :=
      List.sorted_insertionSort strLeR files1
    have s2 : List.Sorted strLeR (List.insertionSort strLeR files2) :=
      List.sorted_insertionSort strLeR files2
    exact List.eq_of_perm_of_sorted hperm s1 s2
  simp [compute_directory_hash, hsorted]

theorem directory_hash_flat_deterministic_witness :
    (["b.txt", "a.txt"] : List String).Perm ["a.txt", "b.txt"]
  ∧ compute_directory_hash [(".", ["b.txt", "a.txt"])] cxFileHash
      = compute_directory_hash [(".", ["a.txt", "b.txt"])] cxFileHash :=
  ⟨by decide, directory_hash_flat_deterministic "." ["b.txt", "a.txt"]
    ["a.txt", "b.txt"] cxFileHash (by decide)⟩

/-! ## Claims about snapshot creation and registry persistence -/

/-- C5 counterexample: when the recursive copy raises after having created
part of the destination (`CopyOutcome.failLeavingDir`), `create_snapshot`
returns `false` — but the partially copied snapshot directory for that
version id is still on disk; the `except` handler performs no cleanup. -/
theorem create_snapshot_failure_leaves_truncated_dir :
    (create_snapshot [] true "v1" CopyOutcome.failLeavingDir).2 = false
  ∧ ("v1", SnapState.truncated) ∈ (create_snapshot [] true "v1"
      CopyOutcome.failLeavingDir).1 := by
  decide

/-- C5 amended: `create_snapshot` returns `false` rather than raising on any
I/O failure (it returns `true` exactly when the data directory exists and
the copy succeeds), but on a copy failure that leaves a partially written
destination the truncated snapshot directory remains on disk — no cleanup
happens before returning. -/
theorem create_snapshot_failure_behavior (disk : List (String × SnapState))
    (qdrant_exists : Bool) (version_id : String) (copy : CopyOutcome) :
    ((create_snapshot disk qdrant_exists version_id copy).2 = true ↔
      qdrant_exists = true ∧ copy = CopyOutcome.ok)
  ∧ (qdrant_exists = true → copy = CopyOutcome.failLeavingDir →
      (version_id, SnapState.truncated) ∈
        (create_snapshot disk qdrant_exists version_id copy).1) := by
  constructor
  · cases qdrant_exists <;> cases copy <;> simp [create_snapshot]
  · intro hq hc
    subst hq; subst hc
    simp [create_snapshot]

theorem create_snapshot_failure_behavior_witness :
    ("v9", SnapState.truncated) ∈
      (create_snapshot [("v8", SnapState.complete)] true "v9"
        CopyOutcome.failLeavingDir).1 :=
  (create_snapshot_failure_behavior [("v8", SnapState.complete)] true "v9"
    CopyOutcome.failLeavingDir).2 rfl rfl

/-- A sample pre-existing registry entry. -/
def vSample : MemoryVersion :=
  { version_id := "v1_t0"
    timestamp := "t0"
    collections := []
    data_hash := []
    metadata := []
    is_active := true }

/-- C6 counterexample: if `_save_registry` fails during `create_version`, the
exception does propagate, but the in-memory registry has already been
mutated (the old flags were cleared and the new record appended before the
write), so the operation proceeds with a half-updated in-memory state that
silently diverges from the prior state still on disk. -/
theorem create_version_save_failure_mutates_memory :
    (create_version [vSample] [] [] [] "t1" false).2 = Except.error "PersistenceError"
  ∧ (create_version [vSample] [] [] [] "t1" false).1 ≠ [vSample] := by
  constructor
  · rfl
  · intro h
    have := congrArg List.length h
    simp [create_version, deactivate_all] at this

/-- C6 amended: a failing registry write during `create_version` surfaces as
a persistence error, but the in-memory registry retains the half-updated
state — one record longer than before the call, with the flags already
rewritten — rather than being rolled back to match the disk. -/
theorem create_version_save_failure_state (versions : List MemoryVersion)
    (collections : List (String × Nat)) (data_hash' : List (String × String))
    (metadata : List (String × String)) (now : String) :
    (create_version versions collections data_hash' metadata now false).2
      = Except.error "PersistenceError"
  ∧ (create_version versions collections data_hash' metadata now false).1.length
      = versions.length + 1
  ∧ (create_version versions collections data_hash' metadata now false).1
      ≠ versions := by
  refine ⟨rfl, ?_, ?_⟩
  · simp [create_version, deactivate_all]
  · intro h
    have := congrArg List.length h
    simp [create_version, deactivate_all] at this

/-! ## Helper lemmas about the active flag -/

theorem deactivate_all_inactive (versions : List MemoryVersion) :
    ∀ v ∈ deactivate_all versions, v.is_active = false := by
  intro v hv
  rcases List.mem_map.mp hv with ⟨w, _, rfl⟩
  rfl

theorem deactivate_all_countP (versions : List MemoryVersion) :
    (deactivate_all versions).countP (fun v => v.is_active) = 0 :=
  List.countP_eq_zero.mpr (by
    intro v hv
    simp [deactivate_all_inactive versions v hv])

theorem deactivate_all_ids (versions : List MemoryVersion) (version_id : String)
    (h : ∃ v ∈ versions, v.version_id = version_id) :
    ∃ v ∈ deactivate_all versions, v.version_id = version_id := by
  rcases h with ⟨v, hv, hid⟩
  exact ⟨{ v with is_active := false }, List.mem_map_of_mem _ hv, hid⟩

theorem activate_first_countP (versions : List MemoryVersion) (version_id : String)
    (h0 : ∀ v ∈ versions, v.is_active = false)
    (hex : ∃ v ∈ versions, v.version_id = version_id) :
    (activate_first versions version_id).countP (fun v => v.is_active) = 1 := by
  induction versions with
  | nil => rcases hex with ⟨v, hv, _⟩; exact absurd hv (List.not_mem_nil v)
  | cons v rest ih =>
    by_cases hid : v.version_id = version_id
    · simp only [activate_first, if_pos hid]
      rw [List.countP_cons]
      have hrest : rest.countP (fun v => v.is_active) = 0 :=
        List.countP_eq_zero.mpr (by
          intro w hw
          simp [h0 w (List.mem_cons_of_mem v hw)])
      simp [hrest]
    · simp only [activate_first, if_neg hid]
      rw [List.countP_cons]
      have hv0 : v.is_active = false := h0 v (List.mem_cons_self v rest)
      have hex' : ∃ w ∈ rest, w.version_id = version_id := by
        rcases hex with ⟨w, hw, hwid⟩
        rcases List.mem_cons.mp hw with rfl | hw'
        · exact absurd hwid hid
        · exact ⟨w, hw', hwid⟩
      have := ih (fun w hw => h0 w (List.mem_cons_of_mem v hw)) hex'
      simp [this, hv0]

theorem activate_first_active_id (versions : List MemoryVersion) (version_id : String)
    (h0 : ∀ v ∈ versions, v.is_active = false) :
    ∀ w ∈ activate_first versions version_id, w.is_active = true →
      w.version_id = version_id := by
  induction versions with
  | nil => intro w hw; exact absurd hw (List.not_mem_nil w)
  | cons v rest ih =>
    intro w hw hact
    by_cases hid : v.version_id = version_id
    · simp only [activate_first, if_pos hid] at hw
      rcases List.mem_cons.mp hw with rfl | hw'
      · exact hid
      · exact absurd hact (by simp [h0 w (List.mem_cons_of_mem v hw')])
    · simp only [activate_first, if_neg hid] at hw
      rcases List.mem_cons.mp hw with rfl | hw'
      · exact absurd hact (by simp [h0 w (List.mem_cons_self w rest)])
      · exact ih (fun x hx => h0 x (List.mem_cons_of_mem v hx)) w hw' hact

theorem rollback_state_single_active (versions : List MemoryVersion)
    (version_id : String) (hex : ∃ v ∈ versions, v.version_id = version_id) :
    (activate_first (deactivate_all versions) version_id).countP
      (fun v => v.is_active) = 1 :=
  activate_first_countP (deactivate_all versions) version_id
    (deactivate_all_inactive versions) (deactivate_all_ids versions version_id hex)

theorem applyOp_single_active (versions : List MemoryVersion) (op : RegistryOp)
    (h : versions = [] ∨ versions.countP (fun v => v.is_active) = 1) :
    applyOp versions op = []
      ∨ (applyOp versions op).countP (fun v => v.is_active) = 1 := by
  cases op with
  | create collections data_hash metadata now =>
    right
    simp only [applyOp, create_version]
    rw [List.countP_append, deactivate_all_countP]
    rfl
  | rollback snapshots copy_ok version_id restore_data =>
    cases hf : versions.find? (fun v => v.version_id == version_id) with
    | none =>
      simpa only [applyOp, rollback_to_version, hf] using h
    | some target =>
      right
      simp only [applyOp, rollback_to_version, hf]
      have htid : target.version_id = version_id := by
        have := List.find?_some hf
        simpa using this
      exact rollback_state_single_active versions version_id
        ⟨target, List.mem_of_find?_eq_some hf, htid⟩

theorem runOps_single_active (ops : List RegistryOp) :
    runOps ops = [] ∨ (runOps ops).countP (fun v => v.is_active) = 1 := by
  suffices hgen : ∀ (init : List MemoryVersion),
      (init = [] ∨ init.countP (fun v => v.is_active) = 1) →
      (ops.foldl applyOp init = []
        ∨ (ops.foldl applyOp init).countP (fun v => v.is_active) = 1) by
    exact hgen [] (Or.inl rfl)
  induction ops with
  | nil => intro init h; simpa using h
  | cons op rest ih =>
    intro init h
    exact ih (applyOp init op) (applyOp_single_active init op h)

/-! ## Claims about the active-version pointer -/

/-- C1: starting from the empty registry, after any sequence of
`create_version` and `rollback_to_version` calls with at least one version
present, exactly one registry entry has `is_active = true`; moreover
`create_version` clears the flag on every pre-existing entry (all entries
but the appended one are inactive), and `rollback_to_version` with an
unknown id leaves the registry — flags included — unchanged and returns
`False`. -/
theorem registry_single_active_invariant (ops : List RegistryOp)
    (h : runOps ops ≠ []) :
    ((runOps ops).countP (fun v => v.is_active) = 1)
  ∧ (∀ (versions : List MemoryVersion) collections data_hash' metadata now save_ok,
      ∀ v ∈ (create_version versions collections data_hash' metadata now
          save_ok).1.dropLast, v.is_active = false)
  ∧ (∀ (versions : List MemoryVersion) snapshots copy_ok version_id restore_data,
      (∀ v ∈ versions, v.version_id ≠ version_id) →
      rollback_to_version versions snapshots copy_ok version_id restore_data
        = (versions, false)) := by
  refine ⟨(runOps_single_active ops).resolve_left h, ?_, ?_⟩
  · intro versions collections data_hash' metadata now save_ok v hv
    simp only [create_version, List.dropLast_concat] at hv
    exact deactivate_all_inactive versions v hv
  · intro versions snapshots copy_ok version_id restore_data hnone
    have hf : versions.find? (fun v => v.version_id == version_id) = none :=
      List.find?_eq_none.mpr (by
        intro v hv
        simp [hnone v hv])
    simp [rollback_to_version, hf]

theorem registry_single_active_invariant_witness :
    runOps [RegistryOp.create [] [] [] "t"] ≠ []
  ∧ (runOps [RegistryOp.create [] [] [] "t"]).countP (fun v => v.is_active) = 1 :=
  ⟨by simp [runOps, applyOp, create_version, deactivate_all],
    (registry_single_active_invariant [RegistryOp.create [] [] [] "t"]
      (by simp [runOps, applyOp, create_version, deactivate_all])).1⟩

/-- A registered version used by the rollback counterexample. -/
def vRoll : MemoryVersion :=
  { version_id := "v1_t"
    timestamp := "t"
    collections := []
    data_hash := []
    metadata := []
    is_active := true }

/-- C2 counterexample: for a registered version with no snapshot directory,
`rollback_to_version(id, restore_data=True)` does flip the active pointer,
but it returns plain `True` — exactly the same value as a rollback whose
snapshot restore succeeds — while `restore_snapshot` itself reported
failure.  The return value therefore does not signal that the data restore
did not occur; it reports blanket success. -/
theorem rollback_missing_snapshot_reports_success :
    restore_snapshot [] true "v1_t" = false
  ∧ (rollback_to_version [vRoll] [] true "v1_t" true).2 = true
  ∧ (rollback_to_version [vRoll] ["v1_t"] true "v1_t" true).2 = true
  ∧ (get_active_version (rollback_to_version [vRoll] [] true "v1_t" true).1).map
      (fun v => v.version_id) = some "v1_t" := by
  decide

/-- C2 amended: for every version id known to the registry,
`rollback_to_version(id, restore_data=True)` flips the active pointer —
`get_active_version` afterwards reports that id — and returns `True`
whether or not the snapshot restore occurred; a failed restore is only
logged and is not reflected in the return value. -/
theorem rollback_missing_snapshot_flips_pointer (versions : List MemoryVersion)
    (snapshots : List String) (copy_ok : Bool) (version_id : String)
    (hmem : ∃ v ∈ versions, v.version_id = version_id) :
    (rollback_to_version versions snapshots copy_ok version_id true).2 = true
  ∧ (get_active_version
      (rollback_to_version versions snapshots copy_ok version_id true).1).map
      (fun v => v.version_id) = some version_id := by
  have hfs : (versions.find? (fun v => v.version_id == version_id)).isSome := by
    rw [List.find?_isSome]
    rcases hmem with ⟨v, hv, hid⟩
    exact ⟨v, hv, by simp [hid]⟩
  rcases Option.isSome_iff_exists.mp hfs with ⟨target, hf⟩
  constructor
  · simp [rollback_to_version, hf]
  · simp only [rollback_to_version, hf]
    set result := activate_first (deactivate_all versions) version_id with hres
    have hcount : result.countP (fun v => v.is_active) = 1 :=
      rollback_state_single_active versions version_id hmem
    have hpos : 0 < result.reverse.countP (fun v => v.is_active) := by
      rw [List.countP_reverse, hcount]; norm_num
    have hfind : (result.reverse.find? (fun v => v.is_active)).isSome := by
      rw [List.find?_isSome]
      exact List.countP_pos_iff.mp hpos
    rcases Option.isSome_iff_exists.mp hfind with ⟨w, hw⟩
    have hwact : w.is_active = true := List.find?_some hw
    have hwmem : w ∈ result := List.mem_reverse.mp (List.mem_of_find?_eq_some hw)
    have hwid : w.version_id = version_id :=
      activate_first_active_id (deactivate_all versions) version_id
        (deactivate_all_inactive versions) w hwmem hwact
    simp [get_active_version, hw, hwid]

theorem rollback_missing_snapshot_flips_pointer_witness :
    (∃ v ∈ [vRoll], v.version_id = "v1_t")
  ∧ (rollback_to_version [vRoll] [] true "v1_t" true).2 = true
  ∧ (get_active_version (rollback_to_version [vRoll] [] true "v1_t" true).1).map
      (fun v => v.version_id) = some "v1_t" :=
  ⟨⟨vRoll, List.mem_cons_self vRoll [], rfl⟩,
    rollback_missing_snapshot_flips_pointer [vRoll] [] true "v1_t"
      ⟨vRoll, List.mem_cons_self vRoll [], rfl⟩⟩

/-! ## Claims about version diffs -/

theorem lookup_eq_none_of_not_mem_keys {β : Type} (m : List (String × β)) (k : String)
    (h : ¬ (m.map Prod.fst).contains k) : m.lookup k = none := by
  induction m with
  | nil => rfl
  | cons p rest ih =>
    simp only [List.map_cons, List.contains_cons, Bool.or_eq_true, not_or] at h
    have hk : ¬ k = p.1 := by
      intro he
      exact h.1 (by simp [he])
    have : List.lookup k (p :: rest) = List.lookup k rest := by
      rcases p with ⟨a, b⟩
      simp only [List.lookup_cons]
      have : (k == a) = false := beq_false_of_ne hk
      simp [this]
    rw [this]
    exact ih h.2

theorem contains_append_or {α : Type} [BEq α] (l1 l2 : List α) (a : α) :
    (l1 ++ l2).contains a = (l1.contains a || l2.contains a) := by
  induction l1 with
  | nil => rfl
  | cons x xs ih =>
    rw [List.cons_append, List.contains_cons, List.contains_cons, ih, Bool.or_assoc]

theorem collDiff_none_iff (v1 v2 : MemoryVersion) (name : String) :
    collDiff v1 v2 name = none ↔
      ((v1.collections.lookup name).getD 0) = ((v2.collections.lookup name).getD 0) := by
  unfold collDiff
  by_cases hc : ((v1.collections.lookup name).getD 0)
      = ((v2.collections.lookup name).getD 0)
  · simp [hc]
  · simp only [hc, iff_false]
    have hmem : (v1.collections.map Prod.fst ++ v2.collections.map Prod.fst).contains name
        = true := by
      by_contra hnot
      rw [contains_append_or, Bool.or_eq_true] at hnot
      push_neg at hnot
      have h1 := lookup_eq_none_of_not_mem_keys v1.collections name (by
        intro hx; exact hnot.1 hx)
      have h2 := lookup_eq_none_of_not_mem_keys v2.collections name (by
        intro hx; exact hnot.2 hx)
      rw [h1, h2] at hc
      exact hc rfl
    have hne : (((v1.collections.lookup name).getD 0)
        != ((v2.collections.lookup name).getD 0)) = true := by
      simp [bne_iff_ne, hc]
    have hcond : ((v1.collections.map Prod.fst ++ v2.collections.map Prod.fst).contains name
        && (((v1.collections.lookup name).getD 0)
          != ((v2.collections.lookup name).getD 0))) = true := by
      rw [hmem, hne]; rfl
    rw [if_pos hcond]
    simp

/-- C8: for two registered versions, `get_version_diff` returns the diff
whose per-collection entries exist exactly where the (zero-defaulted)
counts differ, carrying `(before, after, delta)` with
`delta = after - before`; swapping the two arguments swaps `before`/`after`
and negates `delta`; diffing a version against itself yields empty change
maps on both the collection and data-hash side; and if either id is
unknown the empty sentinel (`none`) is returned. -/
theorem get_version_diff_correct (versions : List MemoryVersion) (idA idB : String)
    (vA vB : MemoryVersion)
    (hA : versions.find? (fun v => v.version_id == idA) = some vA)
    (hB : versions.find? (fun v => v.version_id == idB) = some vB) :
    get_version_diff versions idA idB
      = some ⟨collDiff vA vB, hashDiff vA vB⟩
  ∧ (∀ name, (collDiff vA vB name = none ↔
      ((vA.collections.lookup name).getD 0) = ((vB.collections.lookup name).getD 0)))
  ∧ (∀ name e, collDiff vA vB name = some e →
      e.before = ((vA.collections.lookup name).getD 0)
      ∧ e.after = ((vB.collections.lookup name).getD 0)
      ∧ e.delta = (e.after : Int) - (e.before : Int))
  ∧ (∀ name, collDiff vB vA name =
      (collDiff vA vB name).map (fun e => ⟨e.after, e.before, -e.delta⟩))
  ∧ (∀ name, collDiff vA vA name = none ∧ hashDiff vA vA name = none)
  ∧ (∀ id1 id2, versions.find? (fun v => v.version_id == id1) = none →
      get_version_diff versions id1 id2 = none
      ∧ get_version_diff versions id2 id1 = none) := by
  refine ⟨?_, collDiff_none_iff vA vB, ?_, ?_, ?_, ?_⟩
  · simp [get_version_diff, hA, hB]
  · intro name e he
    unfold collDiff at he
    by_cases hcond : (vA.collections.map Prod.fst ++ vB.collections.map Prod.fst).contains
        name && ((vA.collections.lookup name).getD 0) != ((vB.collections.lookup name).getD 0)
    · rw [if_pos hcond] at he
      cases he
      refine ⟨rfl, rfl, rfl⟩
    · rw [if_neg hcond] at he
      cases he
  · intro name
    unfold collDiff
    have hcont : (vB.collections.map Prod.fst ++ vA.collections.map Prod.fst).contains name
        = (vA.collections.map Prod.fst ++ vB.collections.map Prod.fst).contains name := by
      rw [contains_append_or, contains_append_or, Bool.or_comm]
    rw [hcont]
    by_cases hmem : (vA.collections.map Prod.fst ++ vB.collections.map Prod.fst).contains
        name = true
    · by_cases hc : ((vA.collections.lookup name).getD 0)
          = ((vB.collections.lookup name).getD 0)
      · have hno1 : ¬ (((vA.collections.map Prod.fst ++ vB.collections.map Prod.fst).contains
            name && (((vB.collections.lookup name).getD 0)
              != ((vA.collections.lookup name).getD 0))) = true) := by
          rw [hc]; simp
        have hno2 : ¬ (((vA.collections.map Prod.fst ++ vB.collections.map Prod.fst).contains
            name && (((vA.collections.lookup name).getD 0)
              != ((vB.collections.lookup name).getD 0))) = true) := by
          rw [hc]; simp
        rw [if_neg hno1, if_neg hno2]
        rfl
      · have hne : (((vB.collections.lookup name).getD 0)
            != ((vA.collections.lookup name).getD 0)) = true := by
          simp only [bne_iff_ne, ne_eq]
          exact fun he => hc he.symm
        have hne' : (((vA.collections.lookup name).getD 0)
            != ((vB.collections.lookup name).getD 0)) = true := by
          simp [bne_iff_ne, hc]
        have hc1 : (((vA.collections.map Prod.fst ++ vB.collections.map Prod.fst).contains
            name && (((vB.collections.lookup name).getD 0)
              != ((vA.collections.lookup name).getD 0))) = true) := by
          rw [hmem, hne]; rfl
        have hc2 : (((vA.collections.map Prod.fst ++ vB.collections.map Prod.fst).contains
            name && (((vA.collections.lookup name).getD 0)
              != ((vB.collections.lookup name).getD 0))) = true) := by
          rw [hmem, hne']; rfl
        rw [if_pos hc1, if_pos hc2, Option.map_some']
        congr 1
        simp only [CollChange.mk.injEq, true_and]
        ring
    · have hno1 : ¬ (((vA.collections.map Prod.fst ++ vB.collections.map Prod.fst).contains
          name && (((vB.collections.lookup name).getD 0)
            != ((vA.collections.lookup name).getD 0))) = true) := by
        intro h
        rw [Bool.and_eq_true] at h
        exact hmem h.1
      have hno2 : ¬ (((vA.collections.map Prod.fst ++ vB.collections.map Prod.fst).contains
          name && (((vA.collections.lookup name).getD 0)
            != ((vB.collections.lookup name).getD 0))) = true) := by
        intro h
        rw [Bool.and_eq_true] at h
        exact hmem h.1
      rw [if_neg hno1, if_neg hno2]
      rfl
  · intro name
    constructor
    · simp [collDiff]
    · simp [hashDiff]
  · intro id1 id2 hnone
    constructor
    · simp [get_version_diff, hnone]
    · cases hf2 : versions.find? (fun v => v.version_id == id2) with
      | none => simp [get_version_diff, hf2]
      | some v2 => simp [get_version_diff, hf2, hnone]

/-- First version of the spec's concrete diff example (collection x has
10 points). -/
def vDiffA : MemoryVersion :=
  { version_id := "A"
    timestamp := "tA"
    collections := [("x", 10)]
    data_hash := []
    metadata := [] }

/-- Second version of the spec's concrete diff example (collection x has
15 points). -/
def vDiffB : MemoryVersion :=
  { version_id := "B"
    timestamp := "tB"
    collections := [("x", 15)]
    data_hash := []
    metadata := []
    is_active := true }

theorem get_version_diff_correct_witness :
    collDiff vDiffA vDiffB "x" = some ⟨10, 15, 5⟩
  ∧ collDiff vDiffB vDiffA "x"
      = (collDiff vDiffA vDiffB "x").map (fun e => ⟨e.after, e.before, -e.delta⟩)
  ∧ get_version_diff [vDiffA, vDiffB] "A" "B"
      = some ⟨collDiff vDiffA vDiffB, hashDiff vDiffA vDiffB⟩ :=
  ⟨by decide,
    (get_version_diff_correct [vDiffA, vDiffB] "A" "B" vDiffA vDiffB
      (by rfl) (by rfl)).2.2.2.1 "x",
    (get_version_diff_correct [vDiffA, vDiffB] "A" "B" vDiffA vDiffB
      (by rfl) (by rfl)).1⟩

/-! ## Claims about snapshot retention -/

theorem cleanup_noop (disk : List String) (keep_last : Nat)
    (h : disk.length ≤ keep_last) : cleanup_old_snapshots disk keep_last = (disk, 0) := by
  unfold cleanup_old_snapshots
  rw [if_pos h]

theorem cleanup_foldl (toDel : List String) :
    ∀ (disk : List String) (acc : Nat), toDel.Nodup → disk.Nodup →
      (∀ s ∈ toDel, s ∈ disk) →
      (toDel.foldl cleanupStep (disk, acc)).2 = acc + toDel.length
      ∧ (toDel.foldl cleanupStep (disk, acc)).1
          = disk.filter (fun s => !(toDel.contains s)) := by
  induction toDel with
  | nil =>
    intro disk acc _ _ _
    refine ⟨rfl, ?_⟩
    simp [List.contains]
  | cons d rest ih =>
    intro disk acc hnd hdisk hsub
    have hdmem : d ∈ disk := hsub d (List.mem_cons_self d rest)
    have hstep : cleanupStep (disk, acc) d = (disk.erase d, acc + 1) := by
      simp [cleanupStep, delete_snapshot, hdmem]
    rw [List.foldl_cons, hstep]
    have hnd' : rest.Nodup := hnd.of_cons
    have hdnotin : d ∉ rest := (List.nodup_cons.mp hnd).1
    have herase_nodup : (disk.erase d).Nodup := hdisk.erase d
    have hsub' : ∀ s ∈ rest, s ∈ disk.erase d := by
      intro s hs
      have hne : s ≠ d := fun he => hdnotin (he ▸ hs)
      exact (List.mem_erase_of_ne hne).mpr (hsub s (List.mem_cons_of_mem d hs))
    obtain ⟨hcount, hdiskres⟩ := ih (disk.erase d) (acc + 1) hnd' herase_nodup hsub'
    refine ⟨?_, ?_⟩
    · rw [hcount, List.length_cons]
      omega
    · rw [hdiskres, hdisk.erase_eq_filter d, List.filter_filter]
      apply List.filter_congr
      intro x _
      simp only [List.contains_cons, Bool.not_or, Bool.not_eq_true']
      rw [Bool.and_comm]
      rfl

/-- C7: with a duplicate-free snapshot listing, `cleanup_old_snapshots` with
`keep_last = N` is a no-op returning 0 when at most `N` snapshots exist;
otherwise it deletes exactly `count - N`, leaving `N` snapshots on disk
that are the greatest (most recent) in the id ordering — every remaining id
compares at least as large as every deleted one — and an immediately
repeated call deletes 0. -/
theorem cleanup_old_snapshots_retention (disk : List String) (keep_last : Nat)
    (hnd : disk.Nodup) :
    (disk.length ≤ keep_last → cleanup_old_snapshots disk keep_last = (disk, 0))
  ∧ (keep_last < disk.length →
      (cleanup_old_snapshots disk keep_last).2 = disk.length - keep_last
      ∧ (cleanup_old_snapshots disk keep_last).1.length = keep_last
      ∧ (∀ kept ∈ (cleanup_old_snapshots disk keep_last).1,
          ∀ s ∈ disk, s ∉ (cleanup_old_snapshots disk keep_last).1 →
            strLe s kept = true))
  ∧ (cleanup_old_snapshots (cleanup_old_snapshots disk keep_last).1 keep_last).2 = 0 := by
  by_cases hlen : disk.length ≤ keep_last
  · have hres : cleanup_old_snapshots disk keep_last = (disk, 0) :=
      cleanup_noop disk keep_last hlen
    refine ⟨fun _ => hres, fun hlt => absurd hlen (not_le.mpr hlt), ?_⟩
    rw [hres, cleanup_noop disk keep_last hlen]
  · have hlt : keep_last < disk.length := not_le.mp hlen
    set sorted := List.insertionSort strGeR disk with hsorted_def
    set toDel := sorted.drop keep_last with htoDel_def
    have hperm : sorted.Perm disk := List.perm_insertionSort strGeR disk
    have hsort_nodup : sorted.Nodup := hperm.nodup_iff.mpr hnd
    have htoDel_nodup : toDel.Nodup :=
      List.Nodup.sublist (List.drop_sublist keep_last sorted) hsort_nodup
    have hsub : ∀ s ∈ toDel, s ∈ disk := fun s hs =>
      hperm.mem_iff.mp (List.mem_of_mem_drop hs)
    have hunfold : cleanup_old_snapshots disk keep_last
        = toDel.foldl cleanupStep (disk, 0) := by
      unfold cleanup_old_snapshots
      rw [if_neg hlen]
    obtain ⟨hcount, hrem⟩ := cleanup_foldl toDel disk 0 htoDel_nodup hnd hsub
    have hsortlen : sorted.length = disk.length := hperm.length_eq
    have hcount' : (cleanup_old_snapshots disk keep_last).2 = disk.length - keep_last := by
      rw [hunfold, hcount, htoDel_def, List.length_drop, hsortlen]
      omega
    have hsplit : List.take keep_last sorted ++ toDel = sorted :=
      List.take_append_drop keep_last sorted
    have hdisj : ∀ a ∈ List.take keep_last sorted, a ∉ toDel := by
      have := hsplit ▸ hsort_nodup
      exact fun a ha hb => (List.nodup_append.mp this).2.2 ha hb
    have htake_filter : (List.take keep_last sorted).filter
        (fun s => !(toDel.contains s)) = List.take keep_last sorted :=
      List.filter_eq_self.mpr (by
        intro a ha
        have hcf : toDel.contains a = false :=
          Bool.eq_false_iff.mpr (fun h => hdisj a ha (List.elem_iff.mp h))
        rw [hcf]
        rfl)
    have htoDel_filter : toDel.filter (fun s => !(toDel.contains s)) = [] :=
      List.filter_eq_nil_iff.mpr (by
        intro a ha
        have hct : toDel.contains a = true := List.elem_iff.mpr ha
        rw [hct]
        simp)
    have hRperm : (cleanup_old_snapshots disk keep_last).1.Perm
        (List.take keep_last sorted) := by
      rw [hunfold, hrem]
      have h1 : (disk.filter (fun s => !(toDel.contains s))).Perm
          (sorted.filter (fun s => !(toDel.contains s))) :=
        List.Perm.filter _ hperm.symm
      have h2 : sorted.filter (fun s => !(toDel.contains s))
          = List.take keep_last sorted := by
        conv_lhs => rw [← hsplit]
        rw [List.filter_append, htake_filter, htoDel_filter, List.append_nil]
      exact h2 ▸ h1
    have htake_len : (List.take keep_last sorted).length = keep_last := by
      rw [List.length_take, hsortlen]
      omega
    have hRlen : (cleanup_old_snapshots disk keep_last).1.length = keep_last := by
      rw [hRperm.length_eq, htake_len]
    have hpair : List.Pairwise strGeR sorted := List.sorted_insertionSort strGeR disk
    have hcross : ∀ a ∈ List.take keep_last sorted, ∀ b ∈ toDel, strGeR a b := by
      have := hsplit ▸ hpair
      exact (List.pairwise_append.mp this).2.2
    have horder : ∀ kept ∈ (cleanup_old_snapshots disk keep_last).1,
        ∀ s ∈ disk, s ∉ (cleanup_old_snapshots disk keep_last).1 →
          strLe s kept = true := by
      intro kept hkept s hs hsnot
      have hkept' : kept ∈ List.take keep_last sorted := hRperm.mem_iff.mp hkept
      have hs' : s ∈ sorted := hperm.mem_iff.mpr hs
      have hs'' : s ∈ List.take keep_last sorted ++ toDel := by
        rw [hsplit]
        exact hs'
      rcases List.mem_append.mp hs'' with hin | hin
      · exact absurd (hRperm.mem_iff.mpr hin) hsnot
      · exact hcross kept hkept' s hin
    refine ⟨fun hle => absurd hle hlen, fun _ => ⟨hcount', hRlen, horder⟩, ?_⟩
    have hle2 : (cleanup_old_snapshots disk keep_last).1.length ≤ keep_last := by
      rw [hRlen]
    rw [cleanup_noop _ _ hle2]

/-- The 7-snapshot listing of the spec's retention example. -/
def d7snaps : List String :=
  ["v1_a", "v2_b", "v3_c", "v4_d", "v5_e", "v6_f", "v7_g"]

theorem cleanup_old_snapshots_retention_witness :
    d7snaps.Nodup
  ∧ (cleanup_old_snapshots d7snaps 3).2 = d7snaps.length - 3
  ∧ (cleanup_old_snapshots (cleanup_old_snapshots d7snaps 3).1 3).2 = 0 :=
  ⟨by decide,
    ((cleanup_old_snapshots_retention d7snaps 3 (by decide)).2.1 (by decide)).1,
    (cleanup_old_snapshots_retention d7snaps 3 (by decide)).2.2⟩

end TwinSelf
